import Mathlib

/-!
Shallow embedding of `src/extension.ts` of the terminal-command-trigger
editor extension, with proofs about the claimed behavior.

Host-language strings are modelled as lists of characters (`Str`).  The
host regular-expression engine is kept abstract as a structure `RegexSem`
providing validity of a pattern (whether the regex constructor succeeds)
and a match test; two law fields record that both depend only on the
source text of the compiled regex, which is the pattern itself except
that the empty pattern compiles to the source `(?:)`.  The mutable
`activeExecutions` map of the extension becomes an explicit function from
execution identifiers to the optional stored regex source, threaded
through the handlers.  Each handler returns, besides the new map, the
list of trigger actions it handed to `executeAction` and (for the start
handler) the list of patterns reported as invalid.
-/

namespace TCT

/-- Host strings are modelled as lists of characters. -/
abbrev Str := List Char

/-- Whitespace recognised by the model of trimming. -/
def isWS (c : Char) : Bool :=
  c = ' ' || c = '\t' || c = '\n' || c = '\r' || c = '\x0b' || c = '\x0c'

/-- Model of trimming a command line: drop whitespace from both ends. -/
def jsTrim (s : Str) : Str :=
  ((s.dropWhile isWS).reverse.dropWhile isWS).reverse

/-- Source text of the regex built from pattern `p`: the empty pattern
compiles to a regex with source `(?:)`, any other pattern is its own
source. -/
def rsource (p : Str) : Str :=
  if p = [] then "(?:)".data else p

/-- Printed form of a regex with the given source and no flags, as used
by the end handler to compare the stored regex with a recompiled one. -/
def rToString (src : Str) : Str :=
  '/' :: src ++ ['/']

/-- Abstract host regex engine.  `valid p` says the regex constructor
succeeds on pattern `p`; `test p c` is the match test of the compiled
regex against the string `c`.  The two laws state that both observables
are functions of the compiled source. -/
structure RegexSem where
  valid : Str → Bool
  test : Str → Str → Bool
  valid_congr : ∀ p q, rsource p = rsource q → valid p = valid q
  test_congr : ∀ p q, rsource p = rsource q → test p = test q

/-- Embedding of the `TriggerConfig` interface of the source. -/
structure TriggerConfig where
  pattern : Str
  onStart : Option Str := none
  onEnd : Option Str := none
  description : Option Str := none
deriving DecidableEq

/-- Terminal shell executions are identified by a number; distinct events
carry distinct identifiers. -/
abbrev ExecId := Nat

/-- The `activeExecutions` map: for each execution, the source of the
regex recorded at its start event, if any. -/
abbrev ExecMap := ExecId → Option Str

/-- Observable result of the start handler: the new map, the `onStart`
actions handed to `executeAction`, and the patterns reported as invalid
regular expressions. -/
structure StartResult where
  map : ExecMap
  fired : List Str
  errors : List Str

/-- Observable result of the end handler: the new map and the `onEnd`
actions handed to `executeAction`. -/
structure EndResult where
  map : ExecMap
  fired : List Str

/-- The trigger loop of `handleTerminalCommandStart`: for each trigger in
order, an invalid pattern is reported and the loop continues; a valid
pattern that matches records the compiled regex for the execution, fires
the `onStart` action if present and breaks; otherwise the loop
continues. -/
def runStartLoop (sem : RegexSem) (cmd : Str) (e : ExecId) (m : ExecMap) :
    List TriggerConfig → StartResult
  | [] => ⟨m, [], []⟩
  | t :: ts =>
    if sem.valid t.pattern then
      if sem.test t.pattern cmd then
        ⟨fun x => if x = e then some (rsource t.pattern) else m x,
         t.onStart.toList, []⟩
      else runStartLoop sem cmd e m ts
    else
      let r := runStartLoop sem cmd e m ts
      ⟨r.map, r.fired, t.pattern :: r.errors⟩

/-- Embedding of `handleTerminalCommandStart`: trim the command line,
return unchanged on an empty result, otherwise run the trigger loop. -/
def handleTerminalCommandStart (sem : RegexSem) (triggers : List TriggerConfig)
    (e : ExecId) (cmdLine : Str) (m : ExecMap) : StartResult :=
  let commandLine := jsTrim cmdLine
  if commandLine = [] then ⟨m, [], []⟩
  else runStartLoop sem commandLine e m triggers

/-- The trigger loop of `handleTerminalCommandEnd`: find the first trigger
whose recompiled regex prints like the stored one and fire its `onEnd`
action if present; a pattern whose compilation fails is skipped (the
exception is caught and the loop continues). -/
def runEndLoop (sem : RegexSem) (src : Str) : List TriggerConfig → List Str
  | [] => []
  | t :: ts =>
    if sem.valid t.pattern then
      if rToString (rsource t.pattern) = rToString src then t.onEnd.toList
      else runEndLoop sem src ts
    else runEndLoop sem src ts

/-- Embedding of `handleTerminalCommandEnd`: if the execution has no
recorded regex, return unchanged; otherwise remove the record first and
then run the end loop over the triggers. -/
def handleTerminalCommandEnd (sem : RegexSem) (triggers : List TriggerConfig)
    (e : ExecId) (m : ExecMap) : EndResult :=
  match m e with
  | none => ⟨m, []⟩
  | some src => ⟨fun x => if x = e then none else m x, runEndLoop sem src triggers⟩

/-- Whether a trigger's pattern compiles and its regex matches the
command line. -/
def trigMatches (sem : RegexSem) (cmd : Str) (t : TriggerConfig) : Bool :=
  sem.valid t.pattern && sem.test t.pattern cmd

/-- First trigger (with its position) whose pattern compiles and matches
the command line; this is the trigger at which the start loop breaks. -/
def firstMatchIdx (sem : RegexSem) (cmd : Str) :
    List TriggerConfig → Option (Nat × TriggerConfig)
  | [] => none
  | t :: ts =>
    if trigMatches sem cmd t then some (0, t)
    else (firstMatchIdx sem cmd ts).map fun p => (p.1 + 1, p.2)

/-- Patterns of the triggers whose compilation fails. -/
def invalidPats (sem : RegexSem) (ts : List TriggerConfig) : List Str :=
  (ts.filter fun t => !(sem.valid t.pattern)).map fun t => t.pattern

/-- Host values reachable through an extension's exported API, as far as
`executeAction` can observe them: the two nullish values, booleans,
numbers, strings, functions (identified by a tag) and plain objects. -/
inductive JSVal where
  | undefined
  | jnull
  | jbool (b : Bool)
  | jnum (n : Int)
  | jstr (s : Str)
  | jfun (tag : Str)
  | jobj (fields : List (Str × JSVal))

/-- Whether a value is `undefined` or `null`. -/
def JSVal.isNullish : JSVal → Bool
  | .undefined => true
  | .jnull => true
  | _ => false

/-- Whether a value is falsy: nullish, `false`, zero or the empty string. -/
def JSVal.falsy : JSVal → Bool
  | .undefined => true
  | .jnull => true
  | .jbool b => !b
  | .jnum n => n == 0
  | .jstr s => s.isEmpty
  | .jfun _ => false
  | .jobj _ => false

/-- Whether a value is a function. -/
def JSVal.isFun : JSVal → Bool
  | .jfun _ => true
  | _ => false

/-- Lookup of a field in an object's field list. -/
def lookupField : List (Str × JSVal) → Str → Option JSVal
  | [], _ => none
  | (k, v) :: rest, key => if k = key then some v else lookupField rest key

/-- Property access on a non-nullish value: objects yield their field or
`undefined`.  A primitive is boxed and its prototype consulted, so even a
falsy primitive can carry function-valued properties; the model includes
a representative fragment of the prototypes (the length and the
toUpperCase method of strings, the toString methods of numbers and
booleans), every other key yielding `undefined`. -/
def getProp (v : JSVal) (key : Str) : JSVal :=
  match v with
  | .jobj fields => (lookupField fields key).getD .undefined
  | .jstr s =>
    if key = "length".data then .jnum s.length
    else if key = "toUpperCase".data then .jfun "String.prototype.toUpperCase".data
    else .undefined
  | .jnum _ =>
    if key = "toString".data then .jfun "Number.prototype.toString".data
    else .undefined
  | .jbool _ =>
    if key = "toString".data then .jfun "Boolean.prototype.toString".data
    else .undefined
  | _ => .undefined

/-- Errors with which `executeAction` rejects; activationRejected is the
propagated rejection of the awaited activation of an installed
extension. -/
inductive ActionError where
  | invalidSyntax (action : Str)
  | extensionNotFound (extensionId : Str)
  | activationRejected (extensionId : Str) (msg : Str)
  | apiPathNotFound (apiPath : Str) (upTo : Str)
  | notAFunction (apiPath : Str)
  | typeError (prop : Str)

/-- What a successful `executeAction` did: either it called the method
with the given tag reached through an extension's API, or it ran the
action string as an editor command. -/
inductive Outcome where
  | calledMethod (extensionId : Str) (apiPath : Str) (tag : Str)
  | ranCommand (command : Str)

/-- Host environment of `executeAction`: for each extension identifier,
`none` when the extension is not installed; otherwise the outcome of
awaiting its activation, which either rejects with a message or resolves
to the exported API. -/
structure Host where
  getExtension : Str → Option (Except Str JSVal)

/-- Splitting a string at a separator character, as the host splits with a
single-character separator: the result always has at least one part, and
the empty string splits into one empty part. -/
def splitOnChar (c : Char) : Str → List Str
  | [] => [[]]
  | a :: as =>
    if a = c then [] :: splitOnChar c as
    else
      match splitOnChar c as with
      | [] => [[a]]
      | g :: gs => (a :: g) :: gs

/-- Joining a list of parts with a separator character. -/
def joinChar (c : Char) : List Str → Str
  | [] => []
  | [g] => g
  | g :: g2 :: gs => g ++ c :: joinChar c (g2 :: gs)

/-- The intermediate walk of `executeAction` over the dot-separated path
segments: every segment but the last is looked up with optional chaining
and the loop rejects when the intermediate result is falsy; the last
segment is returned with the object reached.  The list of segments is
never empty, since splitting always yields at least one part, so the
first equation is never reached. -/
def resolveMethod (apiPath : Str) (done : List Str) (target : JSVal) :
    List Str → Except ActionError (JSVal × Str)
  | [] => .error (.notAFunction apiPath)
  | [p] => .ok (target, p)
  | p :: q :: ps =>
    let next := if target.isNullish then JSVal.undefined else getProp target p
    if next.falsy then
      .error (.apiPathNotFound apiPath (joinChar '.' (done ++ [p])))
    else
      resolveMethod apiPath (done ++ [p]) next (q :: ps)

/-- Embedding of `executeAction`.  An action starting with `ext:` is split
after the prefix at colons: fewer than two parts reject with a syntax
error; otherwise the first part names the extension and the remaining
parts, rejoined with colons, form the API path.  The named extension must
be installed and its awaited activation must resolve (a rejection
propagates); the API is walked along the dot-separated path, the value
at the final segment must be a function, and that function is called.
Reading the final segment off a nullish target is the host type error.
An action without the prefix runs as an editor command. -/
def executeAction (host : Host) (action : Str) : Except ActionError Outcome :=
  if "ext:".data.isPrefixOf action then
    let parts := splitOnChar ':' (action.drop 4)
    if parts.length < 2 then
      .error (.invalidSyntax action)
    else
      let extensionId := parts.headD []
      let apiPath := joinChar ':' (parts.drop 1)
      match host.getExtension extensionId with
      | none => .error (.extensionNotFound extensionId)
      | some (.error msg) => .error (.activationRejected extensionId msg)
      | some (.ok api) =>
        match resolveMethod apiPath [] api (splitOnChar '.' apiPath) with
        | .error err => .error err
        | .ok (target, methodName) =>
          if target.isNullish then
            .error (.typeError methodName)
          else
            match getProp target methodName with
            | .jfun tag => .ok (.calledMethod extensionId apiPath tag)
            | _ => .error (.notAFunction apiPath)
  else
    .ok (.ranCommand action)

/-- Whether `executeAction` rejected. -/
def isErr : Except ActionError Outcome → Bool
  | .error _ => true
  | .ok _ => false

/-- Claim-side path conditions, written from the words of the spec: some
intermediate segment of the dot-separated path resolves to nothing
(a nullish value), or the value reached at the final segment is not a
function.  The value after a segment is the property of the value before
it, with nothing yielding nothing. -/
def specBad (value : JSVal) : List Str → Bool
  | [] => !value.isFun
  | p :: ps =>
    let next := if value.isNullish then JSVal.undefined else getProp value p
    (!ps.isEmpty && next.isNullish) || specBad next ps

/-- Claim-side rejection conditions of `executeAction` on an action with
the `ext:` prefix, written from the words of the spec: fewer than two
colon-separated parts after the prefix, extension not installed, an
intermediate path segment resolving to nothing, or a final value that is
not a function.  An installed extension whose activation rejects
satisfies none of the listed conditions (the path conditions speak about
the exported API, which such an activation never produces). -/
def specRejects (host : Host) (action : Str) : Bool :=
  let parts := splitOnChar ':' (action.drop 4)
  decide (parts.length < 2) ||
    match host.getExtension (parts.headD []) with
    | none => true
    | some (.error _) => false
    | some (.ok api) => specBad api (splitOnChar '.' (joinChar ':' (parts.drop 1)))

/-- Amended claim-side path conditions, matching the code's check: some
intermediate value of the dot-separated path is falsy, or the value
reached at the final segment is not a function; the value after a
segment is the property of the value before it, a nullish value yielding
`undefined`. -/
def specBadFalsy (value : JSVal) : List Str → Bool
  | [] => !value.isFun
  | p :: ps =>
    let next := if value.isNullish then JSVal.undefined else getProp value p
    (!ps.isEmpty && next.falsy) || specBadFalsy next ps

/-- Amended claim-side rejection conditions of `executeAction` on an
action with the `ext:` prefix: fewer than two colon-separated parts after
the prefix, extension not installed, activation rejecting, a falsy
intermediate path value, or a final value that is not a function. -/
def specRejectsAmended (host : Host) (action : Str) : Bool :=
  let parts := splitOnChar ':' (action.drop 4)
  decide (parts.length < 2) ||
    match host.getExtension (parts.headD []) with
    | none => true
    | some (.error _) => true
    | some (.ok api) => specBadFalsy api (splitOnChar '.' (joinChar ':' (parts.drop 1)))

/-- User reaction to the Shell Integration warning message. -/
inductive WarnChoice where
  | learnMore
  | dontShowAgain
  | dismissed
deriving DecidableEq

/-- Environment observed by one activation of the extension, with the
timer delays abstracted into the order of observations: the shell
integration state of each terminal present when the first timer fires,
the shell integration state of a terminal opened later (when the first
check found no terminal), and the button the user picks on the warning. -/
structure ActivationEnv where
  terminals : List Bool
  laterTerminal : Option Bool
  choice : WarnChoice
deriving DecidableEq

/-- Flag update performed by the warning message handler of
`showShellIntegrationWarning`: only the Don't Show Again choice records
the persistent flag. -/
def warningFlagAfterChoice (flag : Bool) (c : WarnChoice) : Bool :=
  match c with
  | .dontShowAgain => true
  | _ => flag

/-- Embedding of `checkShellIntegration` for one activation, returning
whether the warning was shown and the new persistent flag.  A recorded
flag returns immediately.  With no terminal present, the handler waits
for one to open and warns if it lacks shell integration, without ever
recording the flag itself.  With terminals present, it warns when none
has shell integration and then records the flag in every case. -/
def checkShellIntegration (flag : Bool) (env : ActivationEnv) : Bool × Bool :=
  if flag then (false, flag)
  else
    let hasIntegration := env.terminals.any fun b => b
    if !hasIntegration && env.terminals.isEmpty then
      match env.laterTerminal with
      | none => (false, flag)
      | some integ =>
        if !integ then (true, warningFlagAfterChoice flag env.choice)
        else (false, flag)
    else if !hasIntegration then
      (true, true)
    else
      (false, true)

/-- Code-side rejection of the path walk: the walk itself errors, or it
ends on a nullish target, or the value at the returned method name is not
a function. -/
def rejectsFrom (apiPath : Str) (done : List Str) (v : JSVal) (segs : List Str) : Bool :=
  match resolveMethod apiPath done v segs with
  | .error _ => true
  | .ok (t, mn) => t.isNullish || !(getProp t mn).isFun

/-- A concrete instance of the abstract regex engine, used to exercise the
theorems on explicit inputs: every pattern is valid and a compiled regex
matches exactly the strings its source is a prefix of.  Both observables
depend only on the source, as the laws require. -/
def litSem : RegexSem where
  valid _ := true
  test p c := (rsource p).isPrefixOf c
  valid_congr := fun _ _ _ => rfl
  test_congr := fun p q h => by
    funext c
    show (rsource p).isPrefixOf c = (rsource q).isPrefixOf c
    rw [h]

/-- An engine whose every regex matches every string, including the empty
command line; it exercises C8 in the case where a configured pattern
matches the empty string. -/
def allSem : RegexSem where
  valid _ := true
  test _ _ := true
  valid_congr := fun _ _ _ => rfl
  test_congr := fun _ _ _ => rfl

/-- An engine in which the pattern consisting of a single opening
parenthesis fails to compile (as it does in the host), every other
pattern is valid and a compiled regex matches exactly the strings its
source is a prefix of. -/
def brSem : RegexSem where
  valid p := !(rsource p == "(".data)
  test p c := (rsource p).isPrefixOf c
  valid_congr := fun p q h => by
    show (!(rsource p == "(".data)) = (!(rsource q == "(".data))
    rw [h]
  test_congr := fun p q h => by
    funext c
    show (rsource p).isPrefixOf c = (rsource q).isPrefixOf c
    rw [h]

/-- A trigger matching command lines that start with the letter a. -/
def trigOne : TriggerConfig :=
  ⟨"a".data, some "startOne".data, some "endOne".data, none⟩

/-- A second trigger whose pattern also matches command lines starting
with the letter a. -/
def trigTwo : TriggerConfig :=
  ⟨"a".data, some "startTwo".data, some "endTwo".data, none⟩

/-- A configuration in which both triggers match the same command. -/
def demoTriggers : List TriggerConfig := [trigOne, trigTwo]

/-- A trigger matching command lines that start with the letter b. -/
def trigB : TriggerConfig :=
  ⟨"b".data, some "startB".data, some "endB".data, none⟩

/-- A trigger whose pattern fails to compile under the engine brSem. -/
def trigBad : TriggerConfig :=
  ⟨"(".data, some "startBad".data, some "endBad".data, none⟩

/-- The map with no active execution. -/
def emptyMap : ExecMap := fun _ => none

/-- An exported API used in concrete instances: an object with a field
client holding an object whose field stop is a function. -/
def demoApi : JSVal :=
  .jobj [("client".data, .jobj [("stop".data, .jfun "stopImpl".data)])]

/-- A host in which exactly the extension demo.ext is installed and its
activation resolves to demoApi. -/
def demoHost : Host :=
  ⟨fun i => if i = "demo.ext".data then some (.ok demoApi) else none⟩

/-- A host exhibiting the two behaviors outside the claimed rejection
conditions: extension box.ext activates to an object whose field s is the
empty string (a falsy value whose boxed toUpperCase property is a
function), and extension fail.ext is installed but its activation
rejects. -/
def boxHost : Host :=
  ⟨fun i =>
    if i = "box.ext".data then some (.ok (.jobj [("s".data, .jstr [])]))
    else if i = "fail.ext".data then some (.error "activation failed".data)
    else none⟩

/-! Helper lemmas about the regex source printer and the trigger loops. -/

lemma rToString_inj {a b : Str} (h : rToString a = rToString b) : a = b := by
  simp only [rToString] at h
  injection h with h1 h2
  exact List.append_cancel_right h2

lemma firstMatchIdx_isMatch (sem : RegexSem) (cmd : Str) :
    ∀ (ts : List TriggerConfig) (i : Nat) (t : TriggerConfig),
      firstMatchIdx sem cmd ts = some (i, t) → trigMatches sem cmd t = true := by
  intro ts
  induction ts with
  | nil => intro i t h; simp [firstMatchIdx] at h
  | cons u ts ih =>
    intro i t h
    by_cases hm : trigMatches sem cmd u = true
    · simp only [firstMatchIdx, hm, if_true] at h
      obtain ⟨rfl, rfl⟩ : 0 = i ∧ u = t := by
        simpa using h
      exact hm
    · simp only [firstMatchIdx, hm, if_false, Bool.false_eq_true] at h
      rcases ho : firstMatchIdx sem cmd ts with _ | ⟨i', t'⟩
      · rw [ho] at h; simp at h
      · rw [ho] at h
        simp only [Option.map_some', Option.some.injEq, Prod.mk.injEq] at h
        obtain ⟨h1, h2⟩ := h
        subst h2
        exact ih i' t' ho

lemma trigMatches_split {sem : RegexSem} {cmd : Str} {t : TriggerConfig}
    (h : trigMatches sem cmd t = true) :
    sem.valid t.pattern = true ∧ sem.test t.pattern cmd = true := by
  simpa [trigMatches] using h

lemma runStartLoop_eq_of_firstMatch (sem : RegexSem) (cmd : Str) (e : ExecId) (m : ExecMap) :
    ∀ (ts : List TriggerConfig) (i : Nat) (t : TriggerConfig),
      firstMatchIdx sem cmd ts = some (i, t) →
      runStartLoop sem cmd e m ts =
        ⟨fun x => if x = e then some (rsource t.pattern) else m x,
         t.onStart.toList, invalidPats sem (ts.take i)⟩ := by
  intro ts
  induction ts with
  | nil => intro i t h; simp [firstMatchIdx] at h
  | cons u ts ih =>
    intro i t h
    by_cases hm : trigMatches sem cmd u = true
    · simp only [firstMatchIdx, hm, if_true] at h
      obtain ⟨rfl, rfl⟩ : 0 = i ∧ u = t := by simpa using h
      obtain ⟨hv, ht⟩ := trigMatches_split hm
      simp [runStartLoop, hv, ht, invalidPats]
    · simp only [firstMatchIdx, hm, if_false, Bool.false_eq_true] at h
      rcases ho : firstMatchIdx sem cmd ts with _ | ⟨i', t'⟩
      · rw [ho] at h; simp at h
      · rw [ho] at h
        simp only [Option.map_some', Option.some.injEq, Prod.mk.injEq] at h
        obtain ⟨hi, h2⟩ := h
        subst h2
        subst hi
        have hrec := ih i' t' ho
        by_cases hv : sem.valid u.pattern = true
        · have ht : sem.test u.pattern cmd = false := by
            cases hts : sem.test u.pattern cmd
            · rfl
            · exact absurd (by simp [trigMatches, hv, hts]) hm
          simp only [runStartLoop, hv, ht, if_true, if_false, Bool.false_eq_true]
          rw [hrec]
          simp [invalidPats, List.take_succ_cons, List.filter_cons, hv]
        · have hv' : sem.valid u.pattern = false := by
            cases hvs : sem.valid u.pattern
            · rfl
            · exact absurd hvs hv
          simp only [runStartLoop, hv', if_false, Bool.false_eq_true]
          rw [hrec]
          simp [invalidPats, List.take_succ_cons, List.filter_cons, hv']

lemma runStartLoop_eq_of_noMatch (sem : RegexSem) (cmd : Str) (e : ExecId) (m : ExecMap) :
    ∀ (ts : List TriggerConfig),
      firstMatchIdx sem cmd ts = none →
      runStartLoop sem cmd e m ts = ⟨m, [], invalidPats sem ts⟩ := by
  intro ts
  induction ts with
  | nil => intro _; simp [runStartLoop, invalidPats]
  | cons u ts ih =>
    intro h
    by_cases hm : trigMatches sem cmd u = true
    · simp [firstMatchIdx, hm] at h
    · simp only [firstMatchIdx, hm, if_false, Bool.false_eq_true] at h
      rcases ho : firstMatchIdx sem cmd ts with _ | p
      · have hrec := ih ho
        by_cases hv : sem.valid u.pattern = true
        · have ht : sem.test u.pattern cmd = false := by
            cases hts : sem.test u.pattern cmd
            · rfl
            · exact absurd (by simp [trigMatches, hv, hts]) hm
          simp only [runStartLoop, hv, ht, if_true, if_false, Bool.false_eq_true]
          rw [hrec]
          simp [invalidPats, List.filter_cons, hv]
        · have hv' : sem.valid u.pattern = false := by
            cases hvs : sem.valid u.pattern
            · rfl
            · exact absurd hvs hv
          simp only [runStartLoop, hv', if_false, Bool.false_eq_true]
          rw [hrec]
          simp [invalidPats, List.filter_cons, hv']
      · rw [ho] at h; simp at h

lemma runEndLoop_eq_of_firstMatch (sem : RegexSem) (cmd : Str) :
    ∀ (ts : List TriggerConfig) (i : Nat) (t : TriggerConfig),
      firstMatchIdx sem cmd ts = some (i, t) →
      runEndLoop sem (rsource t.pattern) ts = t.onEnd.toList := by
  intro ts
  induction ts with
  | nil => intro i t h; simp [firstMatchIdx] at h
  | cons u ts ih =>
    intro i t h
    by_cases hm : trigMatches sem cmd u = true
    · simp only [firstMatchIdx, hm, if_true] at h
      obtain ⟨rfl, rfl⟩ : 0 = i ∧ u = t := by simpa using h
      obtain ⟨hv, _⟩ := trigMatches_split hm
      simp [runEndLoop, hv]
    · simp only [firstMatchIdx, hm, if_false, Bool.false_eq_true] at h
      rcases ho : firstMatchIdx sem cmd ts with _ | ⟨i', t'⟩
      · rw [ho] at h; simp at h
      · rw [ho] at h
        simp only [Option.map_some', Option.some.injEq, Prod.mk.injEq] at h
        obtain ⟨hi, h2⟩ := h
        subst h2
        have hmt := firstMatchIdx_isMatch sem cmd ts i' t' ho
        have hrec := ih i' t' ho
        by_cases hv : sem.valid u.pattern = true
        · have hne : ¬(rToString (rsource u.pattern) = rToString (rsource t'.pattern)) := by
            intro hEq
            have hsrc : rsource u.pattern = rsource t'.pattern := rToString_inj hEq
            have htests : sem.test u.pattern = sem.test t'.pattern :=
              sem.test_congr _ _ hsrc
            have hvalids : sem.valid u.pattern = sem.valid t'.pattern :=
              sem.valid_congr _ _ hsrc
            have : trigMatches sem cmd u = true := by
              simp only [trigMatches, htests, hvalids]
              exact hmt
            exact absurd this hm
          simp only [runEndLoop, hv, if_true]
          rw [if_neg hne]
          exact hrec
        · have hv' : sem.valid u.pattern = false := by
            cases hvs : sem.valid u.pattern
            · rfl
            · exact absurd hvs hv
          simp only [runEndLoop, hv', if_false, Bool.false_eq_true]
          exact hrec

lemma firstMatchIdx_lt_length (sem : RegexSem) (cmd : Str) :
    ∀ (ts : List TriggerConfig) (i : Nat) (t : TriggerConfig),
      firstMatchIdx sem cmd ts = some (i, t) → i < ts.length := by
  intro ts
  induction ts with
  | nil => intro i t h; simp [firstMatchIdx] at h
  | cons u ts ih =>
    intro i t h
    by_cases hm : trigMatches sem cmd u = true
    · simp only [firstMatchIdx, hm, if_true] at h
      obtain ⟨rfl, rfl⟩ : 0 = i ∧ u = t := by simpa using h
      simp
    · simp only [firstMatchIdx, hm, if_false, Bool.false_eq_true] at h
      rcases ho : firstMatchIdx sem cmd ts with _ | ⟨i', t'⟩
      · rw [ho] at h; simp at h
      · rw [ho] at h
        simp only [Option.map_some', Option.some.injEq, Prod.mk.injEq] at h
        obtain ⟨hi, h2⟩ := h
        subst hi
        simpa using Nat.succ_lt_succ (ih i' t' ho)

lemma firstMatchIdx_append_of_some (sem : RegexSem) (cmd : Str) :
    ∀ (pre ts : List TriggerConfig) (i : Nat) (t : TriggerConfig),
      firstMatchIdx sem cmd pre = some (i, t) →
      firstMatchIdx sem cmd (pre ++ ts) = some (i, t) := by
  intro pre
  induction pre with
  | nil => intro ts i t h; simp [firstMatchIdx] at h
  | cons u pre ih =>
    intro ts i t h
    by_cases hm : trigMatches sem cmd u = true
    · simp only [firstMatchIdx, hm, if_true] at h ⊢
      exact h
    · simp only [firstMatchIdx, hm, if_false, Bool.false_eq_true] at h ⊢
      rcases ho : firstMatchIdx sem cmd pre with _ | ⟨i', t'⟩
      · rw [ho] at h; simp at h
      · rw [ho] at h
        simp only [List.append_eq] at *
        rw [ih ts i' t' ho]
        exact h

lemma firstMatchIdx_append_of_none (sem : RegexSem) (cmd : Str) :
    ∀ (pre ts : List TriggerConfig),
      firstMatchIdx sem cmd pre = none →
      firstMatchIdx sem cmd (pre ++ ts) =
        (firstMatchIdx sem cmd ts).map (fun p => (p.1 + pre.length, p.2)) := by
  intro pre
  induction pre with
  | nil => intro ts _; simp
  | cons u pre ih =>
    intro ts h
    by_cases hm : trigMatches sem cmd u = true
    · simp [firstMatchIdx, hm] at h
    · simp only [firstMatchIdx, hm, if_false, Bool.false_eq_true] at h ⊢
      rcases ho : firstMatchIdx sem cmd pre with _ | p
      · simp only [List.append_eq] at *
        rw [ih ts ho]
        rcases firstMatchIdx sem cmd ts with _ | q
        · simp
        · simp only [Option.map_some', List.length_cons, Nat.add_assoc]
      · rw [ho] at h; simp at h

lemma runStartLoop_append_of_noMatch (sem : RegexSem) (cmd : Str) (e : ExecId) (m : ExecMap) :
    ∀ (pre ts : List TriggerConfig),
      firstMatchIdx sem cmd pre = none →
      runStartLoop sem cmd e m (pre ++ ts) =
        ⟨(runStartLoop sem cmd e m ts).map, (runStartLoop sem cmd e m ts).fired,
         invalidPats sem pre ++ (runStartLoop sem cmd e m ts).errors⟩ := by
  intro pre
  induction pre with
  | nil => intro ts _; simp [invalidPats]
  | cons u pre ih =>
    intro ts h
    by_cases hm : trigMatches sem cmd u = true
    · simp [firstMatchIdx, hm] at h
    · simp only [firstMatchIdx, hm, if_false, Bool.false_eq_true] at h
      rcases ho : firstMatchIdx sem cmd pre with _ | p
      · have hrec := ih ts ho
        by_cases hv : sem.valid u.pattern = true
        · have ht : sem.test u.pattern cmd = false := by
            cases hts : sem.test u.pattern cmd
            · rfl
            · exact absurd (by simp [trigMatches, hv, hts]) hm
          simp only [List.cons_append, runStartLoop, hv, ht, if_true, if_false,
            Bool.false_eq_true, List.append_eq]
          rw [hrec]
          simp [invalidPats, List.filter_cons, hv]
        · have hv' : sem.valid u.pattern = false := by
            cases hvs : sem.valid u.pattern
            · rfl
            · exact absurd hvs hv
          simp only [List.cons_append, runStartLoop, hv', if_false, Bool.false_eq_true,
            List.append_eq]
          rw [hrec]
          simp [invalidPats, List.filter_cons, hv']
      · rw [ho] at h; simp at h

lemma firstMatchIdx_eq_none_of_forall (sem : RegexSem) (cmd : Str) :
    ∀ (ts : List TriggerConfig),
      (∀ t ∈ ts, trigMatches sem cmd t = false) →
      firstMatchIdx sem cmd ts = none := by
  intro ts
  induction ts with
  | nil => intro _; simp [firstMatchIdx]
  | cons u ts ih =>
    intro h
    have hu : trigMatches sem cmd u = false := h u (by simp)
    have hts : firstMatchIdx sem cmd ts = none :=
      ih fun t ht => h t (by simp [ht])
    simp [firstMatchIdx, hu, hts]

lemma firstMatchIdx_of_first (sem : RegexSem) (cmd : Str) :
    ∀ (ts : List TriggerConfig) (i : Nat) (t : TriggerConfig),
      ts[i]? = some t →
      trigMatches sem cmd t = true →
      (∀ j u, j < i → ts[j]? = some u → trigMatches sem cmd u = false) →
      firstMatchIdx sem cmd ts = some (i, t) := by
  intro ts
  induction ts with
  | nil => intro i t h; simp at h
  | cons u ts ih =>
    intro i t hget hmt hbefore
    cases i with
    | zero =>
      simp only [List.getElem?_cons_zero, Option.some.injEq] at hget
      subst hget
      simp [firstMatchIdx, hmt]
    | succ i' =>
      have hu : trigMatches sem cmd u = false :=
        hbefore 0 u (Nat.succ_pos i') (by simp)
      have hrec := ih i' t (by simpa using hget) hmt
        (fun j v hj hv => hbefore (j + 1) v (Nat.succ_lt_succ hj) (by simpa using hv))
      simp [firstMatchIdx, hu, hrec]

lemma jsTrim_eq_nil_of_ws {cmd : Str} (h : ∀ c ∈ cmd, isWS c = true) :
    jsTrim cmd = [] := by
  have h1 : cmd.dropWhile isWS = [] := List.dropWhile_eq_nil_iff.mpr h
  simp [jsTrim, h1]

/-- C1: for every terminal execution whose start event matched some
configured trigger, the end event fires exactly the onEnd action of the
trigger that matched at start, and no other trigger's onEnd fires for
that execution. -/
theorem claim_C1_end_fires_same_trigger
    (sem : RegexSem) (triggers : List TriggerConfig) (e : ExecId) (cmdLine : Str)
    (m : ExecMap) (i : Nat) (t : TriggerConfig)
    (hmatch : firstMatchIdx sem (jsTrim cmdLine) triggers = some (i, t))
    (hne : jsTrim cmdLine ≠ []) :
    (handleTerminalCommandEnd sem triggers e
        (handleTerminalCommandStart sem triggers e cmdLine m).map).fired =
      t.onEnd.toList := by
  have hstart := runStartLoop_eq_of_firstMatch sem (jsTrim cmdLine) e m triggers i t hmatch
  have hmap : (handleTerminalCommandStart sem triggers e cmdLine m).map e
      = some (rsource t.pattern) := by
    simp [handleTerminalCommandStart, hne, hstart]
  simp only [handleTerminalCommandEnd, hmap]
  exact runEndLoop_eq_of_firstMatch sem (jsTrim cmdLine) triggers i t hmatch

/-- Witness for C1 at a concrete engine, configuration and command. -/
theorem claim_C1_witness :
    firstMatchIdx litSem (jsTrim "a".data) demoTriggers = some (0, trigOne) ∧
    jsTrim "a".data ≠ [] ∧
    (handleTerminalCommandEnd litSem demoTriggers 7
        (handleTerminalCommandStart litSem demoTriggers 7 "a".data emptyMap).map).fired =
      trigOne.onEnd.toList :=
  ⟨by decide, by decide,
   claim_C1_end_fires_same_trigger litSem demoTriggers 7 "a".data emptyMap 0 trigOne
     (by decide) (by decide)⟩

/-- Counterexample to C2 as stated: in a configuration where two triggers
match the same trimmed command line, the second matching trigger is a
configured trigger whose regex matches, yet neither its onStart nor its
onEnd action is ever invoked for the execution. -/
theorem claim_C2_counterexample :
    trigTwo ∈ demoTriggers ∧
    trigMatches litSem (jsTrim "a".data) trigTwo = true ∧
    "startTwo".data ∉
      (handleTerminalCommandStart litSem demoTriggers 7 "a".data emptyMap).fired ∧
    "endTwo".data ∉
      (handleTerminalCommandEnd litSem demoTriggers 7
        (handleTerminalCommandStart litSem demoTriggers 7 "a".data emptyMap).map).fired := by
  decide

/-- C2 (amended): for every terminal execution whose trimmed command line
is nonempty and matches some configured trigger, the first matching
trigger's onStart action (if present) is invoked when the execution
starts, and that trigger's onEnd action (if present) is invoked when the
same execution ends. -/
theorem claim_C2_matched_trigger_fires
    (sem : RegexSem) (triggers : List TriggerConfig) (e : ExecId) (cmdLine : Str)
    (m : ExecMap) (i : Nat) (t : TriggerConfig)
    (hmatch : firstMatchIdx sem (jsTrim cmdLine) triggers = some (i, t))
    (hne : jsTrim cmdLine ≠ []) :
    (handleTerminalCommandStart sem triggers e cmdLine m).fired = t.onStart.toList ∧
    (handleTerminalCommandEnd sem triggers e
        (handleTerminalCommandStart sem triggers e cmdLine m).map).fired =
      t.onEnd.toList := by
  have hstart := runStartLoop_eq_of_firstMatch sem (jsTrim cmdLine) e m triggers i t hmatch
  constructor
  · simp [handleTerminalCommandStart, hne, hstart]
  · have hmap : (handleTerminalCommandStart sem triggers e cmdLine m).map e
        = some (rsource t.pattern) := by
      simp [handleTerminalCommandStart, hne, hstart]
    simp only [handleTerminalCommandEnd, hmap]
    exact runEndLoop_eq_of_firstMatch sem (jsTrim cmdLine) triggers i t hmatch

/-- Witness for the amended C2 at a concrete engine, configuration and
command. -/
theorem claim_C2_witness :
    firstMatchIdx litSem (jsTrim "a".data) demoTriggers = some (0, trigOne) ∧
    jsTrim "a".data ≠ [] ∧
    ((handleTerminalCommandStart litSem demoTriggers 3 "a".data emptyMap).fired =
        trigOne.onStart.toList ∧
      (handleTerminalCommandEnd litSem demoTriggers 3
          (handleTerminalCommandStart litSem demoTriggers 3 "a".data emptyMap).map).fired =
        trigOne.onEnd.toList) :=
  ⟨by decide, by decide,
   claim_C2_matched_trigger_fires litSem demoTriggers 3 "a".data emptyMap 0 trigOne
     (by decide) (by decide)⟩

/-- C5: when the trimmed command line matches the patterns of more than
one configured trigger, only the first matching trigger in configuration
order fires its onStart action and is recorded for onEnd correlation: the
whole result of the start handler is determined by that trigger (and by
the invalid patterns before it), so every later matching trigger does
nothing for the execution. -/
theorem claim_C5_first_match_wins
    (sem : RegexSem) (triggers : List TriggerConfig) (e : ExecId) (cmdLine : Str)
    (m : ExecMap) (i : Nat) (t : TriggerConfig)
    (hget : triggers[i]? = some t)
    (hmt : trigMatches sem (jsTrim cmdLine) t = true)
    (hbefore : ∀ j u, j < i → triggers[j]? = some u →
      trigMatches sem (jsTrim cmdLine) u = false)
    (hne : jsTrim cmdLine ≠ []) :
    handleTerminalCommandStart sem triggers e cmdLine m =
      ⟨fun x => if x = e then some (rsource t.pattern) else m x,
       t.onStart.toList, invalidPats sem (triggers.take i)⟩ := by
  have hfmi := firstMatchIdx_of_first sem (jsTrim cmdLine) triggers i t hget hmt hbefore
  have hstart := runStartLoop_eq_of_firstMatch sem (jsTrim cmdLine) e m triggers i t hfmi
  simp [handleTerminalCommandStart, hne, hstart]

/-- Witness for C5 at a concrete engine, configuration and command. -/
theorem claim_C5_witness :
    demoTriggers[0]? = some trigOne ∧
    trigMatches litSem (jsTrim "a".data) trigOne = true ∧
    jsTrim "a".data ≠ [] ∧
    handleTerminalCommandStart litSem demoTriggers 4 "a".data emptyMap =
      ⟨fun x => if x = 4 then some (rsource trigOne.pattern) else emptyMap x,
       trigOne.onStart.toList, invalidPats litSem (demoTriggers.take 0)⟩ :=
  ⟨by decide, by decide, by decide,
   claim_C5_first_match_wins litSem demoTriggers 4 "a".data emptyMap 0 trigOne
     (by decide) (by decide) (fun j u hj _ => absurd hj (Nat.not_lt_zero j)) (by decide)⟩

/-- C6: when the trimmed command line matches no configured trigger, no
action is executed at start or at end, and the active-executions map is
unchanged by the start handler and by the end handler on this fresh
execution. -/
theorem claim_C6_no_match_frame
    (sem : RegexSem) (triggers : List TriggerConfig) (e : ExecId) (cmdLine : Str)
    (m : ExecMap)
    (hnomatch : ∀ t ∈ triggers, trigMatches sem (jsTrim cmdLine) t = false)
    (hfresh : m e = none) :
    (handleTerminalCommandStart sem triggers e cmdLine m).fired = [] ∧
    (handleTerminalCommandStart sem triggers e cmdLine m).map = m ∧
    handleTerminalCommandEnd sem triggers e m = ⟨m, []⟩ := by
  have hfmi := firstMatchIdx_eq_none_of_forall sem (jsTrim cmdLine) triggers hnomatch
  have hloop := runStartLoop_eq_of_noMatch sem (jsTrim cmdLine) e m triggers hfmi
  refine ⟨?_, ?_, ?_⟩
  · by_cases hne : jsTrim cmdLine = []
    · simp [handleTerminalCommandStart, hne]
    · simp [handleTerminalCommandStart, hne, hloop]
  · by_cases hne : jsTrim cmdLine = []
    · simp [handleTerminalCommandStart, hne]
    · simp [handleTerminalCommandStart, hne, hloop]
  · simp [handleTerminalCommandEnd, hfresh]

/-- Witness for C6 at a concrete engine, configuration and command that
matches neither trigger. -/
theorem claim_C6_witness :
    (∀ t ∈ demoTriggers, trigMatches litSem (jsTrim "b".data) t = false) ∧
    ((handleTerminalCommandStart litSem demoTriggers 6 "b".data emptyMap).fired = [] ∧
      (handleTerminalCommandStart litSem demoTriggers 6 "b".data emptyMap).map = emptyMap ∧
      handleTerminalCommandEnd litSem demoTriggers 6 emptyMap = ⟨emptyMap, []⟩) :=
  ⟨by decide,
   claim_C6_no_match_frame litSem demoTriggers 6 "b".data emptyMap (by decide) rfl⟩

/-- C7: an execution whose entry in the active map was changed by the
start handler is this very execution, recorded with the regex of a
matching trigger; the end handler removes the record before acting, and a
second end event for the same execution fires nothing and changes
nothing. -/
theorem claim_C7_active_map_invariant
    (sem : RegexSem) (triggers : List TriggerConfig) (e : ExecId) (cmdLine : Str)
    (m : ExecMap) (x : ExecId)
    (hchanged : (handleTerminalCommandStart sem triggers e cmdLine m).map x ≠ m x) :
    (x = e ∧ jsTrim cmdLine ≠ [] ∧
      ∃ i t, firstMatchIdx sem (jsTrim cmdLine) triggers = some (i, t) ∧
        (handleTerminalCommandStart sem triggers e cmdLine m).map x =
          some (rsource t.pattern)) ∧
    (handleTerminalCommandEnd sem triggers e
        (handleTerminalCommandStart sem triggers e cmdLine m).map).map x = none ∧
    handleTerminalCommandEnd sem triggers e
        (handleTerminalCommandEnd sem triggers e
          (handleTerminalCommandStart sem triggers e cmdLine m).map).map =
      ⟨(handleTerminalCommandEnd sem triggers e
          (handleTerminalCommandStart sem triggers e cmdLine m).map).map, []⟩ := by
  by_cases hne : jsTrim cmdLine = []
  · exact absurd (by simp [handleTerminalCommandStart, hne]) hchanged
  · rcases hfmi : firstMatchIdx sem (jsTrim cmdLine) triggers with _ | ⟨i, t⟩
    · exact absurd
        (by simp [handleTerminalCommandStart, hne,
          runStartLoop_eq_of_noMatch sem (jsTrim cmdLine) e m triggers hfmi]) hchanged
    · have hstart := runStartLoop_eq_of_firstMatch sem (jsTrim cmdLine) e m triggers i t hfmi
      have hmapdef : (handleTerminalCommandStart sem triggers e cmdLine m).map =
          fun y => if y = e then some (rsource t.pattern) else m y := by
        simp [handleTerminalCommandStart, hne, hstart]
      have hxe : x = e := by
        by_contra hxe
        exact hchanged (by rw [hmapdef]; simp [hxe])
      subst hxe
      have hmape : (handleTerminalCommandStart sem triggers x cmdLine m).map x =
          some (rsource t.pattern) := by
        rw [hmapdef]; simp
      have hremoved : (handleTerminalCommandEnd sem triggers x
          (handleTerminalCommandStart sem triggers x cmdLine m).map).map x = none := by
        simp only [handleTerminalCommandEnd, hmape]
        simp
      refine ⟨⟨rfl, hne, ⟨i, t, rfl, hmape⟩⟩, hremoved, ?_⟩
      generalize hM : (handleTerminalCommandEnd sem triggers x
          (handleTerminalCommandStart sem triggers x cmdLine m).map).map = M at hremoved ⊢
      simp only [handleTerminalCommandEnd, hremoved]

/-- Witness for C7 at a concrete engine, configuration and command. -/
theorem claim_C7_witness :
    (handleTerminalCommandStart litSem demoTriggers 5 "a".data emptyMap).map 5 ≠
      emptyMap 5 ∧
    ((handleTerminalCommandEnd litSem demoTriggers 5
        (handleTerminalCommandStart litSem demoTriggers 5 "a".data emptyMap).map).map 5 =
       none ∧
      handleTerminalCommandEnd litSem demoTriggers 5
          (handleTerminalCommandEnd litSem demoTriggers 5
            (handleTerminalCommandStart litSem demoTriggers 5 "a".data emptyMap).map).map =
        ⟨(handleTerminalCommandEnd litSem demoTriggers 5
            (handleTerminalCommandStart litSem demoTriggers 5 "a".data emptyMap).map).map,
         []⟩) :=
  ⟨by decide,
   (claim_C7_active_map_invariant litSem demoTriggers 5 "a".data emptyMap 5 (by decide)).2⟩

/-- C8: a command line that is empty or consists only of whitespace makes
the start handler return before testing any trigger pattern: no action
fires, no invalid-pattern error is reported and the map is unchanged,
whatever the configured patterns match. -/
theorem claim_C8_whitespace_ignored
    (sem : RegexSem) (triggers : List TriggerConfig) (e : ExecId) (cmdLine : Str)
    (m : ExecMap)
    (hws : ∀ c ∈ cmdLine, isWS c = true) :
    handleTerminalCommandStart sem triggers e cmdLine m = ⟨m, [], []⟩ := by
  simp [handleTerminalCommandStart, jsTrim_eq_nil_of_ws hws]

/-- Witness for C8 with a whitespace-only command and an engine whose
patterns match the empty string. -/
theorem claim_C8_witness :
    (∀ c ∈ "  ".data, isWS c = true) ∧
    allSem.test "a".data [] = true ∧
    handleTerminalCommandStart allSem demoTriggers 2 "  ".data emptyMap =
      ⟨emptyMap, [], []⟩ :=
  ⟨by decide, rfl,
   claim_C8_whitespace_ignored allSem demoTriggers 2 "  ".data emptyMap (by decide)⟩

/-- C9: a trigger whose pattern fails to compile is skipped without
stopping the scan: deleting it from the configuration changes neither the
recorded map nor the fired onStart actions, and when the loop reaches it
(no earlier trigger matched) the reported errors are exactly those of the
configuration without it, plus its own pattern reported in place; the
triggers after it are still tested against the same command line. -/
theorem claim_C9_invalid_pattern_skipped
    (sem : RegexSem) (pre post : List TriggerConfig) (bad : TriggerConfig)
    (e : ExecId) (cmdLine : Str) (m : ExecMap)
    (hbad : sem.valid bad.pattern = false)
    (hne : jsTrim cmdLine ≠ []) :
    (handleTerminalCommandStart sem (pre ++ bad :: post) e cmdLine m).map =
      (handleTerminalCommandStart sem (pre ++ post) e cmdLine m).map ∧
    (handleTerminalCommandStart sem (pre ++ bad :: post) e cmdLine m).fired =
      (handleTerminalCommandStart sem (pre ++ post) e cmdLine m).fired ∧
    (firstMatchIdx sem (jsTrim cmdLine) pre = none →
      ∃ rest,
        (handleTerminalCommandStart sem (pre ++ post) e cmdLine m).errors =
          invalidPats sem pre ++ rest ∧
        (handleTerminalCommandStart sem (pre ++ bad :: post) e cmdLine m).errors =
          invalidPats sem pre ++ bad.pattern :: rest) := by
  rcases hfmi : firstMatchIdx sem (jsTrim cmdLine) pre with _ | ⟨i, t⟩
  · have h1 := runStartLoop_append_of_noMatch sem (jsTrim cmdLine) e m pre (bad :: post) hfmi
    have h2 := runStartLoop_append_of_noMatch sem (jsTrim cmdLine) e m pre post hfmi
    have hbadstep : runStartLoop sem (jsTrim cmdLine) e m (bad :: post) =
        ⟨(runStartLoop sem (jsTrim cmdLine) e m post).map,
         (runStartLoop sem (jsTrim cmdLine) e m post).fired,
         bad.pattern :: (runStartLoop sem (jsTrim cmdLine) e m post).errors⟩ := by
      simp only [runStartLoop, hbad, if_false, Bool.false_eq_true]
    rw [hbadstep] at h1
    refine ⟨?_, ?_, fun _ => ⟨(runStartLoop sem (jsTrim cmdLine) e m post).errors, ?_, ?_⟩⟩
    · simp [handleTerminalCommandStart, hne, h1, h2]
    · simp [handleTerminalCommandStart, hne, h1, h2]
    · simp [handleTerminalCommandStart, hne, h2]
    · simp [handleTerminalCommandStart, hne, h1]
  · have hi := firstMatchIdx_lt_length sem (jsTrim cmdLine) pre i t hfmi
    have h1 := runStartLoop_eq_of_firstMatch sem (jsTrim cmdLine) e m (pre ++ bad :: post) i t
      (firstMatchIdx_append_of_some sem (jsTrim cmdLine) pre (bad :: post) i t hfmi)
    have h2 := runStartLoop_eq_of_firstMatch sem (jsTrim cmdLine) e m (pre ++ post) i t
      (firstMatchIdx_append_of_some sem (jsTrim cmdLine) pre post i t hfmi)
    have htake1 : (pre ++ bad :: post).take i = pre.take i :=
      List.take_append_of_le_length (Nat.le_of_lt hi)
    have htake2 : (pre ++ post).take i = pre.take i :=
      List.take_append_of_le_length (Nat.le_of_lt hi)
    rw [htake1] at h1
    rw [htake2] at h2
    refine ⟨?_, ?_, fun hq => by simp at hq⟩
    · simp [handleTerminalCommandStart, hne, h1, h2]
    · simp [handleTerminalCommandStart, hne, h1, h2]

/-- Witness for C9 at a concrete engine with an invalid pattern between a
non-matching and a matching trigger. -/
theorem claim_C9_witness :
    brSem.valid trigBad.pattern = false ∧
    jsTrim "a".data ≠ [] ∧
    (handleTerminalCommandStart brSem ([trigB] ++ trigBad :: [trigOne]) 8 "a".data
        emptyMap).map =
      (handleTerminalCommandStart brSem ([trigB] ++ [trigOne]) 8 "a".data emptyMap).map ∧
    (handleTerminalCommandStart brSem ([trigB] ++ trigBad :: [trigOne]) 8 "a".data
        emptyMap).fired =
      (handleTerminalCommandStart brSem ([trigB] ++ [trigOne]) 8 "a".data emptyMap).fired ∧
    ∃ rest,
      (handleTerminalCommandStart brSem ([trigB] ++ [trigOne]) 8 "a".data emptyMap).errors =
        invalidPats brSem [trigB] ++ rest ∧
      (handleTerminalCommandStart brSem ([trigB] ++ trigBad :: [trigOne]) 8 "a".data
          emptyMap).errors =
        invalidPats brSem [trigB] ++ trigBad.pattern :: rest :=
  ⟨by decide, by decide,
   (claim_C9_invalid_pattern_skipped brSem [trigB] [trigOne] trigBad 8 "a".data emptyMap
     (by decide) (by decide)).1,
   (claim_C9_invalid_pattern_skipped brSem [trigB] [trigOne] trigBad 8 "a".data emptyMap
     (by decide) (by decide)).2.1,
   (claim_C9_invalid_pattern_skipped brSem [trigB] [trigOne] trigBad 8 "a".data emptyMap
     (by decide) (by decide)).2.2 (by decide)⟩

lemma splitOnChar_ne_nil (c : Char) : ∀ s : Str, splitOnChar c s ≠ [] := by
  intro s
  induction s with
  | nil => simp [splitOnChar]
  | cons a as ih =>
    by_cases hac : a = c
    · simp [splitOnChar, hac]
    · simp only [splitOnChar, hac, if_false]
      cases hs : splitOnChar c as with
      | nil => simp
      | cons g gs => simp

lemma joinChar_cons_cons (c : Char) (a : Char) (g : Str) (gs : List Str) :
    joinChar c ((a :: g) :: gs) = a :: joinChar c (g :: gs) := by
  cases gs with
  | nil => simp [joinChar]
  | cons g2 gs' => simp [joinChar]

lemma joinChar_splitOnChar (c : Char) : ∀ s : Str, joinChar c (splitOnChar c s) = s := by
  intro s
  induction s with
  | nil => simp [splitOnChar, joinChar]
  | cons a as ih =>
    by_cases hac : a = c
    · subst hac
      simp only [splitOnChar, if_pos rfl]
      cases hs : splitOnChar a as with
      | nil => exact absurd hs (splitOnChar_ne_nil a as)
      | cons g gs =>
        rw [hs] at ih
        simp [joinChar, ih]
    · simp only [splitOnChar, hac, if_false]
      cases hs : splitOnChar c as with
      | nil => exact absurd hs (splitOnChar_ne_nil c as)
      | cons g gs =>
        rw [hs] at ih
        rw [joinChar_cons_cons, ih]

lemma splitOnChar_append (c : Char) :
    ∀ (a b : Str), c ∉ a → splitOnChar c (a ++ c :: b) = a :: splitOnChar c b := by
  intro a
  induction a with
  | nil => intro b _; simp [splitOnChar]
  | cons x xs ih =>
    intro b hc
    have hx : ¬(x = c) := fun hx => hc (hx ▸ List.mem_cons_self x xs)
    have hxs : c ∉ xs := fun hm => hc (List.mem_cons_of_mem x hm)
    simp only [List.cons_append, splitOnChar, hx, if_false, List.append_eq]
    rw [ih b hxs]

/-- C3: executeAction dispatches on the ext: prefix.  An action without
the prefix runs as a plain editor command.  An action of the shape
ext:extensionId:api.path (where the extension identifier has no colon,
while the api path may keep further colons) activates the named extension
and calls the function reached by walking the dot-separated path through
its exported API. -/
theorem claim_C3_action_prefix_dispatch
    (host : Host) (action extId apiPath : Str) (api target : JSVal) (tag mname : Str) :
    (¬ ("ext:".data.isPrefixOf action = true) →
      executeAction host action = .ok (.ranCommand action)) ∧
    (action = "ext:".data ++ extId ++ ':' :: apiPath →
      ':' ∉ extId →
      host.getExtension extId = some (.ok api) →
      resolveMethod apiPath [] api (splitOnChar '.' apiPath) = .ok (target, mname) →
      target.isNullish = false →
      getProp target mname = .jfun tag →
      executeAction host action = .ok (.calledMethod extId apiPath tag)) := by
  constructor
  · intro h
    simp [executeAction, h]
  · intro hact hcol hext hres hnn hfun
    subst hact
    have hpre : "ext:".data.isPrefixOf ("ext:".data ++ (extId ++ ':' :: apiPath)) = true := by
      rw [List.isPrefixOf_iff_prefix]
      exact List.prefix_append _ _
    have hdrop : ("ext:".data ++ (extId ++ ':' :: apiPath)).drop 4 =
        extId ++ ':' :: apiPath := by
      have h4 : ("ext:".data).length = 4 := by decide
      rw [← h4, List.drop_left]
    have hsplit : splitOnChar ':' (extId ++ ':' :: apiPath) =
        extId :: splitOnChar ':' apiPath :=
      splitOnChar_append ':' extId apiPath hcol
    have hlen : ¬((extId :: splitOnChar ':' apiPath).length < 2) := by
      cases hs : splitOnChar ':' apiPath with
      | nil => exact absurd hs (splitOnChar_ne_nil ':' apiPath)
      | cons g gs => simp [hs]
    have hjoin : joinChar ':' ((extId :: splitOnChar ':' apiPath).drop 1) = apiPath := by
      simp only [List.drop_succ_cons, List.drop_zero]
      exact joinChar_splitOnChar ':' apiPath
    simp only [executeAction, List.append_assoc, hpre, if_true, hdrop, hsplit,
      if_neg hlen, List.headD_cons, hjoin, hext, hres, hnn, Bool.false_eq_true,
      if_false, hfun]

/-- Witness for C3 at a concrete host, with one plain command action and
one extension API action. -/
theorem claim_C3_witness :
    ¬ ("ext:".data.isPrefixOf "workbench.action.files.save".data = true) ∧
    executeAction demoHost "workbench.action.files.save".data =
      .ok (.ranCommand "workbench.action.files.save".data) ∧
    "ext:demo.ext:client.stop".data =
      "ext:".data ++ "demo.ext".data ++ ':' :: "client.stop".data ∧
    executeAction demoHost "ext:demo.ext:client.stop".data =
      .ok (.calledMethod "demo.ext".data "client.stop".data "stopImpl".data) :=
  ⟨by decide,
   (claim_C3_action_prefix_dispatch demoHost "workbench.action.files.save".data
     [] [] .undefined .undefined [] []).1 (by decide),
   by decide,
   (claim_C3_action_prefix_dispatch demoHost "ext:demo.ext:client.stop".data
     "demo.ext".data "client.stop".data demoApi
     (.jobj [("stop".data, .jfun "stopImpl".data)]) "stopImpl".data "stop".data).2
     (by decide) (by decide) rfl rfl rfl rfl⟩

lemma specBadFalsy_cons (v : JSVal) (p : Str) (ps : List Str) :
    specBadFalsy v (p :: ps) =
      ((!ps.isEmpty &&
        (if v.isNullish then JSVal.undefined else getProp v p).falsy) ||
        specBadFalsy (if v.isNullish then JSVal.undefined else getProp v p) ps) := rfl

lemma rejectsFrom_eq_specBadFalsy (apiPath : Str) :
    ∀ (segs : List Str) (v : JSVal) (done : List Str), segs ≠ [] →
      rejectsFrom apiPath done v segs = specBadFalsy v segs := by
  intro segs
  induction segs with
  | nil => intro v done h; exact absurd rfl h
  | cons p ps ih =>
    intro v done _
    cases ps with
    | nil =>
      by_cases hn : v.isNullish = true
      · have hnext : (if v.isNullish then JSVal.undefined else getProp v p) = JSVal.undefined := by
          simp [hn]
        simp [rejectsFrom, resolveMethod, specBadFalsy, hn, hnext, JSVal.isFun]
      · have hn' : v.isNullish = false := by
          cases hvn : v.isNullish
          · rfl
          · exact absurd hvn hn
        have hnext : (if v.isNullish then JSVal.undefined else getProp v p) = getProp v p := by
          simp [hn']
        simp [rejectsFrom, resolveMethod, specBadFalsy, hn', hnext]
    | cons q qs =>
      cases hf : (if v.isNullish then JSVal.undefined else getProp v p).falsy with
      | true =>
        have hrej : rejectsFrom apiPath done v (p :: q :: qs) = true := by
          simp only [rejectsFrom, resolveMethod, hf, if_true]
        have hspec : specBadFalsy v (p :: q :: qs) = true := by
          rw [specBadFalsy_cons, hf]
          simp
        rw [hrej, hspec]
      | false =>
        have hrej : rejectsFrom apiPath done v (p :: q :: qs) =
            rejectsFrom apiPath (done ++ [p])
              (if v.isNullish then JSVal.undefined else getProp v p) (q :: qs) := by
          simp only [rejectsFrom, resolveMethod, hf, Bool.false_eq_true, if_false]
        rw [hrej, ih (if v.isNullish then JSVal.undefined else getProp v p)
          (done ++ [p]) (by simp)]
        conv_rhs => rw [specBadFalsy_cons]
        rw [hf]
        simp

/-- Counterexample to C4 as stated: with extension box.ext activating to
an object whose field s is the empty string, the action
ext:box.ext:s.toUpperCase rejects in the code (the intermediate value of
segment s is falsy), yet none of the claim's four conditions holds: s
resolves to a value (the empty string, not nothing) and the value at the
final segment, the boxed string's toUpperCase method, is a function.
The action ext:fail.ext:s on an installed extension whose activation
rejects is a second rejection the four conditions miss. -/
theorem claim_C4_counterexample :
    isErr (executeAction boxHost "ext:box.ext:s.toUpperCase".data) = true ∧
    specRejects boxHost "ext:box.ext:s.toUpperCase".data = false ∧
    isErr (executeAction boxHost "ext:fail.ext:s".data) = true ∧
    specRejects boxHost "ext:fail.ext:s".data = false := by
  decide

/-- C4 (amended): an ext:-prefixed action rejects with an error, invoking
no method and no command, exactly when fewer than two colon-separated
parts follow the prefix, the named extension is not installed, the
extension's awaited activation rejects, an intermediate value of the
dot-separated api path is falsy (undefined, null, false, zero or the
empty string, not merely nothing), or the value at the final segment is
not a function. -/
theorem claim_C4_reject_conditions_amended
    (host : Host) (action : Str)
    (hpre : "ext:".data.isPrefixOf action = true) :
    isErr (executeAction host action) = specRejectsAmended host action := by
  simp only [executeAction, specRejectsAmended, hpre, if_true]
  by_cases hlen : (splitOnChar ':' (action.drop 4)).length < 2
  · simp [hlen, isErr]
  · have hlenb : decide ((splitOnChar ':' (action.drop 4)).length < 2) = false := by
      simp [hlen]
    rw [if_neg hlen, hlenb]
    cases hext : host.getExtension ((splitOnChar ':' (action.drop 4)).headD []) with
    | none => simp [isErr]
    | some res =>
      cases res with
      | error msg => simp [isErr]
      | ok api =>
        simp only [Bool.false_or]
        have hne := splitOnChar_ne_nil '.'
          (joinChar ':' ((splitOnChar ':' (action.drop 4)).drop 1))
        have hkey := rejectsFrom_eq_specBadFalsy
          (joinChar ':' ((splitOnChar ':' (action.drop 4)).drop 1))
          (splitOnChar '.' (joinChar ':' ((splitOnChar ':' (action.drop 4)).drop 1)))
          api [] hne
        unfold rejectsFrom at hkey
        cases hres : resolveMethod
            (joinChar ':' ((splitOnChar ':' (action.drop 4)).drop 1)) [] api
            (splitOnChar '.' (joinChar ':' ((splitOnChar ':' (action.drop 4)).drop 1))) with
        | error err =>
          rw [hres] at hkey
          have hsb : specBadFalsy api
              (splitOnChar '.' (joinChar ':' ((splitOnChar ':' (action.drop 4)).drop 1))) =
              true := by rw [← hkey]
          rw [hsb]
          rfl
        | ok pr =>
          obtain ⟨t, mn⟩ := pr
          rw [hres] at hkey
          rw [← hkey]
          by_cases hn : t.isNullish = true
          · simp [isErr, hn]
          · have hn' : t.isNullish = false := by
              cases hvn : t.isNullish
              · rfl
              · exact absurd hvn hn
            cases hgp : getProp t mn <;> simp [isErr, hn', hgp, JSVal.isFun]

/-- Witness for the amended C4 at a concrete host and action whose
intermediate path value is a falsy boxed string: the code rejects and the
amended conditions hold alike. -/
theorem claim_C4_witness :
    "ext:".data.isPrefixOf "ext:box.ext:s.toUpperCase".data = true ∧
    isErr (executeAction boxHost "ext:box.ext:s.toUpperCase".data) =
      specRejectsAmended boxHost "ext:box.ext:s.toUpperCase".data :=
  ⟨by decide,
   claim_C4_reject_conditions_amended boxHost "ext:box.ext:s.toUpperCase".data
     (by decide)⟩

/-- Counterexample to C10 as stated: an activation that finds no open
terminal waits for one, and when the terminal that opens lacks shell
integration the warning is shown without the persistent flag being
recorded (the user dismisses the message), so a second activation in the
same situation shows the warning again: the warning is not shown at most
once. -/
theorem claim_C10_counterexample :
    (checkShellIntegration false ⟨[], some false, .dismissed⟩).1 = true ∧
    (checkShellIntegration false ⟨[], some false, .dismissed⟩).2 = false ∧
    (checkShellIntegration
        (checkShellIntegration false ⟨[], some false, .dismissed⟩).2
        ⟨[], some false, .dismissed⟩).1 = true := by
  decide

/-- C10 (amended): after the persistent flag has been recorded, no later
activation of the extension shows the Shell Integration warning, and the
flag stays recorded; the at-most-once headline only holds from the
moment the flag is recorded, since the path that waits for a terminal to
open shows the warning without recording the flag. -/
theorem claim_C10_flag_suppresses_warning (env : ActivationEnv) :
    checkShellIntegration true env = (false, true) := by
  simp [checkShellIntegration]

end TCT
